import Mathlib

/-!
Verification of the mahjong score-tracking application (`src/app.py`)
against its natural-language specification.

The two logical units are embedded as pure Lean functions:
  * the scoring engine `calculate_points`,
  * the endpoint handlers `calculate`, `calculate_totals`, `remove_games`.

Python's machine model is translated as follows: Python `int` becomes `ℤ`;
the float arithmetic `(score - 25000) / 1000` becomes exact arithmetic
over `ℚ`; Python's stable `sorted(..., reverse=True)` becomes
`List.insertionSort` with the relation "left value's key is ≥ right
value's key", which is the (unique) stable descending sort; a Python
`dict` with insertion-order iteration becomes an association list updated
in place; the SQLite `games` table becomes a list of rows in insertion
order.

All definitions are computable, so concrete runs can be settled by
evaluation.
-/

namespace Mahjong

/-! ## The scoring engine (`calculate_points`, app.py lines 60-78) -/

/-- Python's `sorted(scores, key=lambda x: x[1], reverse=True)`: a stable
sort placing larger second components first.  `List.insertionSort` with
relation `fun a b => b.2 ≤ a.2` inserts each element before the first
element of the sorted tail whose key is ≤ its own, which keeps equal-key
elements in input order — the same stable descending order Python's
Timsort produces. -/
def pySortDesc {α β : Type} [LinearOrder β] (l : List (α × β)) : List (α × β) :=
  List.insertionSort (fun a b => b.2 ≤ a.2) l

/-- `rank_points = [15, 5, -5, -15]` (app.py line 70), as rationals since
they are combined with the float quotient. -/
def rank_points : List ℚ := [15, 5, -5, -15]

/-- `calculate_points` (app.py lines 60-78): sort by score descending,
then pair positionally with the rank weights and compute
`points = rank_points[i] + (score - 25000) / 1000`.  The Python loop
indexes `rank_points[i]` for `i` up to `len(scores) - 1`; on the
(only-used) four-element inputs `zipWith` performs the same pairing. -/
def calculate_points (scores : List (String × ℤ)) : List (String × ℤ × ℚ) :=
  List.zipWith (fun w p => (p.1, p.2, w + ((p.2 : ℚ) - 25000) / 1000))
    rank_points (pySortDesc scores)

/-- The sum of the `points` components of a result list. -/
def pointsSum (rs : List (String × ℤ × ℚ)) : ℚ :=
  (rs.map (fun r => r.2.2)).sum

/-- Drop the `points` component of a result, recovering the (name, score)
pair. -/
def dropPoints (r : String × ℤ × ℚ) : String × ℤ :=
  (r.1, r.2.1)

/-! ## The `/calculate` endpoint (app.py lines 100-156) -/

/-- Python's `round(x)` on an exact rational: nearest integer, ties to
even (banker's rounding). -/
def pyRound (x : ℚ) : ℤ :=
  let n := ⌊x⌋
  if x - n < 1 / 2 then n
  else if 1 / 2 < x - n then n + 1
  else if n % 2 = 0 then n else n + 1

/-- Python's `round(x, 1)`. -/
def pyRound1 (x : ℚ) : ℚ :=
  (pyRound (10 * x) : ℚ) / 10

/-- Python's `str.strip()`: remove leading and trailing whitespace,
modelled structurally over the character list. -/
def pyStrip (s : String) : String :=
  ⟨((s.data.dropWhile Char.isWhitespace).reverse.dropWhile Char.isWhitespace).reverse⟩

/-- Accumulate decimal digits; `none` as soon as a non-digit appears. -/
def digitsToNat (acc : ℕ) : List Char → Option ℕ
  | [] => some acc
  | c :: cs =>
    if c.isDigit then digitsToNat (acc * 10 + (c.toNat - 48)) cs else none

/-- Python's `int(...)` applied to a string: an optional minus sign
followed by at least one digit parses to the integer, anything else
raises `ValueError` (modelled as `none`). -/
def parseIntLit (s : String) : Option ℤ :=
  match s.data with
  | [] => none
  | c :: cs =>
    if c = '-' then
      match cs with
      | [] => none
      | _ => (digitsToNat 0 cs).map (fun n => -(n : ℤ))
    else (digitsToNat 0 (c :: cs)).map (fun n => (n : ℤ))

/-- A JSON value arriving in a score field: an integer or a string.
Python's `int(...)` keeps an int unchanged and parses a string,
raising `ValueError` when the string is not an integer literal. -/
inductive JVal where
  | jint (z : ℤ)
  | jstr (s : String)
  deriving DecidableEq

/-- `int(data.get('playerN_score', 0))` (app.py line 110): a missing field
defaults to `0`; an unparsable string raises `ValueError`, modelled as
`none`. -/
def pyInt : Option JVal → Option ℤ
  | none => some 0
  | some (.jint z) => some z
  | some (.jstr s) => parseIntLit s

/-- The request body of `/calculate`: the four `playerN_name` and
`playerN_score` fields, each possibly absent. -/
structure CalcRequest where
  name1 : Option String
  score1 : Option JVal
  name2 : Option String
  score2 : Option JVal
  name3 : Option String
  score3 : Option JVal
  name4 : Option String
  score4 : Option JVal
  deriving DecidableEq

/-- The four (name field, score field) slots in loop order `i = 1..4`. -/
def CalcRequest.slots (req : CalcRequest) : List (Option String × Option JVal) :=
  [(req.name1, req.score1), (req.name2, req.score2),
   (req.name3, req.score3), (req.name4, req.score4)]

/-- An HTTP reply: a success payload, or an error status with message. -/
inductive HttpReply (α : Type) where
  | ok (payload : α)
  | err (status : ℕ) (msg : String)
  deriving DecidableEq

/-- The validation loop of `calculate` (app.py lines 106-118), starting at
player number `i`.  Per slot the code first runs `int(...)` (line 110,
whose `ValueError` is caught at line 153 with the generic message), then
checks the trimmed name (line 112), then the multiple-of-100 condition
(line 115).  On success it yields the validated (trimmed name, score)
pairs. -/
def validateFrom (i : ℕ) : List (Option String × Option JVal) →
    Except String (List (String × ℤ))
  | [] => .ok []
  | (nf, sf) :: rest =>
    match pyInt sf with
    | none => .error "Invalid input. Please check all fields."
    | some score =>
      if pyStrip (nf.getD "") = "" then
        .error ("Player " ++ toString i ++ " name is required")
      else if score % 100 ≠ 0 then
        .error ("Player " ++ toString i ++ " score must be a multiple of 100")
      else
        match validateFrom (i + 1) rest with
        | .error e => .error e
        | .ok ps => .ok ((pyStrip (nf.getD ""), score) :: ps)

/-- The observable outcome of one `/calculate` call: the HTTP response and
the row inserted into `games` (`none` when nothing was inserted). -/
structure CalcOutcome where
  response : HttpReply (List (String × ℤ × ℚ))
  inserted : Option (List (String × ℤ × ℚ))
  deriving DecidableEq

/-- The `/calculate` handler (app.py lines 100-156): validate the four
slots in order, compute points, insert the raw (unrounded) results row,
and respond with the results rounded to one decimal (line 148). -/
def calculate (req : CalcRequest) : CalcOutcome :=
  match validateFrom 1 req.slots with
  | .error e => { response := .err 400 e, inserted := none }
  | .ok players =>
    let results := calculate_points players
    { response := .ok (results.map (fun r => (r.1, r.2.1, pyRound1 r.2.2)))
      inserted := some results }

/-- One slot passes validation when its trimmed name is non-empty and its
score field parses to an integer multiple of 100. -/
def slotOK (p : Option String × Option JVal) : Bool :=
  (pyStrip (p.1.getD "") ≠ "") &&
    (match pyInt p.2 with
     | some z => z % 100 = 0
     | none => false)

/-- A request whose first slot has a valid name but a score string that
`int(...)` cannot parse. -/
def badScoreReq : CalcRequest :=
  { name1 := some "Alice", score1 := some (.jstr "abc")
    name2 := some "Bob", score2 := some (.jint 30000)
    name3 := some "Carol", score3 := some (.jint 20000)
    name4 := some "Dave", score4 := some (.jint 10000) }

/-- A request whose first slot's score is an integer that is not a
multiple of 100 (the spec's own example, 25050). -/
def oddScoreReq : CalcRequest :=
  { name1 := some "Alice", score1 := some (.jint 25050)
    name2 := some "Bob", score2 := some (.jint 30000)
    name3 := some "Carol", score3 := some (.jint 20000)
    name4 := some "Dave", score4 := some (.jint 10000) }

/-- A fully valid request with the conventional score quadruple. -/
def okReq : CalcRequest :=
  { name1 := some "A", score1 := some (.jint 40000)
    name2 := some "B", score2 := some (.jint 30000)
    name3 := some "C", score3 := some (.jint 20000)
    name4 := some "D", score4 := some (.jint 10000) }

/-- A request with valid names whose first score field is absent and
whose other three score fields hold valid scores. -/
def mixedReq : CalcRequest :=
  { name1 := some "A", score1 := none
    name2 := some "B", score2 := some (.jint 30000)
    name3 := some "C", score3 := some (.jint 20000)
    name4 := some "D", score4 := some (.jint 10000) }

/-! ## The `games` table, `/calculate_totals` and `/remove_games` -/

/-- One row of the `games` table: its id and the four
(name, score, points) entries.  The table is modelled as a list of rows
in insertion (rowid) order. -/
structure GameRow where
  id : ℕ
  e1 : String × ℤ × ℚ
  e2 : String × ℤ × ℚ
  e3 : String × ℤ × ℚ
  e4 : String × ℤ × ℚ
  deriving DecidableEq

/-- The four entries of a row in column order `player1..player4`. -/
def GameRow.entries (g : GameRow) : List (String × ℤ × ℚ) :=
  [g.e1, g.e2, g.e3, g.e4]

/-- The (name, points) pairs of a row, in column order — what the totals
loop (app.py lines 220-226) reads. -/
def GameRow.pairs (g : GameRow) : List (String × ℚ) :=
  [(g.e1.1, g.e1.2.2), (g.e2.1, g.e2.2.2), (g.e3.1, g.e3.2.2), (g.e4.1, g.e4.2.2)]

/-- `player_totals[name] += points` on a Python dict (app.py lines
224-226), modelled as an association list in key-insertion order: a
present key is updated in place, a new key is appended. -/
def addPair (acc : List (String × ℚ)) (n : String) (q : ℚ) : List (String × ℚ) :=
  if acc.any (fun p => p.1 = n) then
    acc.map (fun p => if p.1 = n then (p.1, p.2 + q) else p)
  else acc ++ [(n, q)]

/-- The accumulation loop of `/calculate_totals` over the flattened
(name, points) pairs of the fetched games. -/
def accumPairs (ps : List (String × ℚ)) : List (String × ℚ) :=
  ps.foldl (fun a p => addPair a p.1 p.2) []

/-- The (name, points) pairs the totals loop iterates over: the four
entries of each fetched row, rows in stored order. -/
def fetchedPairs (db : List GameRow) (game_ids : List ℕ) : List (String × ℚ) :=
  ((db.filter (fun g => g.id ∈ game_ids)).map GameRow.pairs).flatten

/-- The `/calculate_totals` handler (app.py lines 199-236): an empty id
list is rejected with 400; otherwise the rows whose id is in the list are
fetched (in stored order), per-name totals are accumulated, sorted by
total descending (Python's stable sort), and returned rounded to one
decimal (line 233).  The handler never modifies the table; the second
component returns the table to make that observable. -/
def calculate_totals (db : List GameRow) (game_ids : List ℕ) :
    HttpReply (List (String × ℚ)) × List GameRow :=
  if game_ids = [] then (.err 400 "No games selected", db)
  else
    let totals := accumPairs (fetchedPairs db game_ids)
    (.ok ((pySortDesc totals).map (fun p => (p.1, pyRound1 p.2))), db)

/-- The `/remove_games` handler (app.py lines 238-264): an empty id list
is rejected with 400; otherwise exactly the rows whose id is in the list
are deleted and `deleted_count` (sqlite's `rowcount`) — the number of
deleted rows — is returned. -/
def remove_games (db : List GameRow) (game_ids : List ℕ) :
    HttpReply ℕ × List GameRow :=
  if game_ids = [] then (.err 400 "No games selected", db)
  else ((.ok (db.filter (fun g => g.id ∈ game_ids)).length),
    db.filter (fun g => g.id ∉ game_ids))

/-- A one-row table whose points are all 0, used to instantiate the
aggregation claims on a concrete input. -/
def dbW : List GameRow :=
  [{ id := 1, e1 := ("A", 25000, 0), e2 := ("B", 25000, 0)
     e3 := ("C", 25000, 0), e4 := ("D", 25000, 0) }]

/-! ## Spec-side definitions for the totals aggregation

These follow the specification's words ("a player's total is simply the
sum of their per-game points wherever their name matches exactly", names
listed in "insertion order of first appearance") and are compared with
the implementation's dict accumulation. -/

/-- The exact sum of the points attached to name `n` in the pair list. -/
def sumFor (n : String) (ps : List (String × ℚ)) : ℚ :=
  ((ps.filter (fun p => p.1 = n)).map (fun p => p.2)).sum

/-- The distinct names of a list in order of first appearance. -/
def dedupFirst (ns : List String) : List String :=
  ns.foldl (fun a n => if n ∈ a then a else a ++ [n]) []

/-- The per-name totals as the specification describes them: one entry
per distinct name in first-appearance order, carrying the exact sum. -/
def specTotals (ps : List (String × ℚ)) : List (String × ℚ) :=
  (dedupFirst (ps.map (fun p => p.1))).map (fun n => (n, sumFor n ps))

/-! ## Basic facts about the stable descending sort -/

theorem pySortDesc_perm {α β : Type} [LinearOrder β] (l : List (α × β)) :
    (pySortDesc l).Perm l :=
  List.perm_insertionSort _ l

theorem pySortDesc_length {α β : Type} [LinearOrder β] (l : List (α × β)) :
    (pySortDesc l).length = l.length :=
  (pySortDesc_perm l).length_eq

theorem pySortDesc_sorted {α β : Type} [LinearOrder β] (l : List (α × β)) :
    List.Sorted (fun a b => b.2 ≤ a.2) (pySortDesc l) := by
  haveI : IsTotal (α × β) (fun a b => b.2 ≤ a.2) := ⟨fun a b => le_total b.2 a.2⟩
  haveI : IsTrans (α × β) (fun a b => b.2 ≤ a.2) :=
    ⟨fun _ _ _ h1 h2 => le_trans h2 h1⟩
  exact List.sorted_insertionSort _ l

/-- Inserting an element moves it only past strictly larger keys, so the
subsequence of entries carrying any fixed key value is unchanged. -/
theorem filter_orderedInsert {α β : Type} [LinearOrder β]
    (p : α × β) (l : List (α × β)) (v : β) :
    (List.orderedInsert (fun a b => b.2 ≤ a.2) p l).filter (fun q => q.2 = v) =
      ((p :: l).filter (fun q => q.2 = v)) := by
  induction l with
  | nil => rfl
  | cons b bs ih =>
    by_cases hle : b.2 ≤ p.2
    · simp [List.orderedInsert, hle]
    · by_cases hp : p.2 = v
      · by_cases hb : b.2 = v
        · exact absurd (hb.trans hp.symm).le hle
        · simp only [List.orderedInsert, if_neg hle]
          rw [List.filter_cons_of_neg (by simpa using hb), ih,
            List.filter_cons_of_pos (by simpa using hp),
            List.filter_cons_of_pos (by simpa using hp),
            List.filter_cons_of_neg (by simpa using hb)]
      · simp only [List.orderedInsert, if_neg hle]
        by_cases hb : b.2 = v
        · rw [List.filter_cons_of_pos (by simpa using hb), ih,
            List.filter_cons_of_neg (by simpa using hp),
            List.filter_cons_of_neg (by simpa using hp),
            List.filter_cons_of_pos (by simpa using hb)]
        · rw [List.filter_cons_of_neg (by simpa using hb), ih,
            List.filter_cons_of_neg (by simpa using hp),
            List.filter_cons_of_neg (by simpa using hp),
            List.filter_cons_of_neg (by simpa using hb)]

/-- The stable descending sort preserves the relative order of entries
sharing any fixed key value. -/
theorem filter_pySortDesc {α β : Type} [LinearOrder β] (l : List (α × β)) (v : β) :
    (pySortDesc l).filter (fun q => q.2 = v) = l.filter (fun q => q.2 = v) := by
  induction l with
  | nil => rfl
  | cons a as ih =>
    show (List.orderedInsert _ a (pySortDesc as)).filter _ = _
    rw [filter_orderedInsert]
    by_cases ha : a.2 = v
    · rw [List.filter_cons_of_pos (by simpa using ha), ih,
        List.filter_cons_of_pos (by simpa using ha)]
    · rw [List.filter_cons_of_neg (by simpa using ha), ih,
        List.filter_cons_of_neg (by simpa using ha)]

theorem exists_four {β : Type} {l : List β} (h : l.length = 4) :
    ∃ a b c d, l = [a, b, c, d] := by
  rcases l with _ | ⟨a, _ | ⟨b, _ | ⟨c, _ | ⟨d, _ | ⟨e, t⟩⟩⟩⟩⟩ <;> simp_all

/-- On four-element inputs, dropping the points component of the scoring
engine's output recovers exactly the sorted input. -/
theorem calculate_points_dropPoints {l : List (String × ℤ)} (h : l.length = 4) :
    (calculate_points l).map dropPoints = pySortDesc l := by
  obtain ⟨a, b, c, d, hsp⟩ := exists_four ((pySortDesc_length l).trans h)
  simp [calculate_points, hsp, rank_points, dropPoints]

/-! ## Claims about the scoring engine -/

/-- C1 (amended): for four (name, rawScore) pairs whose rawScores are each
a multiple of 100 and sum to 100000, the four output points values of
`calculate_points` sum to exactly 0.  (Without the sum-100000 hypothesis
the claim is false, see the counterexample.) -/
theorem claim_C1_points_sum_zero (p1 p2 p3 p4 : String × ℤ)
    (hm1 : p1.2 % 100 = 0) (hm2 : p2.2 % 100 = 0)
    (hm3 : p3.2 % 100 = 0) (hm4 : p4.2 % 100 = 0)
    (hsum : p1.2 + p2.2 + p3.2 + p4.2 = 100000) :
    pointsSum (calculate_points [p1, p2, p3, p4]) = 0 := by
  obtain ⟨a, b, c, d, hsp⟩ := exists_four (l := pySortDesc [p1, p2, p3, p4])
    ((pySortDesc_length _).trans (by simp))
  have hperm := pySortDesc_perm [p1, p2, p3, p4]
  rw [hsp] at hperm
  have hs : a.2 + b.2 + c.2 + d.2 = p1.2 + p2.2 + p3.2 + p4.2 := by
    have := (hperm.map (fun q => q.2)).sum_eq
    simp at this
    omega
  have hq : (a.2 : ℚ) + b.2 + c.2 + d.2 = 100000 := by
    rw [hsum] at hs
    exact_mod_cast hs
  simp only [calculate_points, hsp, rank_points, pointsSum, List.zipWith, List.map,
    List.sum_cons, List.sum_nil]
  field_simp
  linarith

/-- C1 witness: the theorem applied at the conventional quadruple
(40000, 30000, 20000, 10000). -/
theorem claim_C1_witness :
    pointsSum (calculate_points
      [("A", 40000), ("B", 30000), ("C", 20000), ("D", 10000)]) = 0 :=
  claim_C1_points_sum_zero ("A", 40000) ("B", 30000) ("C", 20000) ("D", 10000)
    (by decide) (by decide) (by decide) (by decide) (by decide)

/-- C1 counterexample: four scores of 0 — each a multiple of 100, so the
claim's stated precondition holds — produce points summing to −100, not 0:
the code never constrains the scores to total 100000. -/
theorem claim_C1_counterexample :
    ((0 : ℤ) % 100 = 0) ∧
    pointsSum (calculate_points [("A", 0), ("B", 0), ("C", 0), ("D", 0)]) = -100 ∧
    pointsSum (calculate_points [("A", 0), ("B", 0), ("C", 0), ("D", 0)]) ≠ 0 := by
  refine ⟨by decide, ?_, ?_⟩ <;>
    norm_num [pointsSum, calculate_points, pySortDesc, rank_points,
      List.insertionSort, List.orderedInsert]

/-- C2: `calculate_points` on four pairs returns a reordering of the input
pairs (points dropped), sorted by rawScore descending, in which the points
value at each rank position equals the rank weight 15/5/−5/−15 plus
(rawScore − 25000)/1000 with no rounding; concretely, scores
(40000, 30000, 20000, 10000) yield points (30, 10, −10, −30) in that
player order. -/
theorem claim_C2_algorithm (p1 p2 p3 p4 : String × ℤ) :
    ((calculate_points [p1, p2, p3, p4]).map dropPoints).Perm [p1, p2, p3, p4] ∧
    List.Sorted (fun r s => s.2.1 ≤ r.2.1) (calculate_points [p1, p2, p3, p4]) ∧
    (calculate_points [p1, p2, p3, p4]).map (fun r => r.2.2) =
      List.zipWith (fun w s => w + ((s : ℚ) - 25000) / 1000) rank_points
        ((calculate_points [p1, p2, p3, p4]).map (fun r => r.2.1)) ∧
    calculate_points [("A", 40000), ("B", 30000), ("C", 20000), ("D", 10000)] =
      [("A", 40000, 30), ("B", 30000, 10), ("C", 20000, -10), ("D", 10000, -30)] := by
  obtain ⟨a, b, c, d, hsp⟩ := exists_four (l := pySortDesc [p1, p2, p3, p4])
    ((pySortDesc_length _).trans (by simp))
  refine ⟨?_, ?_, ?_, ?_⟩
  · rw [calculate_points_dropPoints (by simp)]
    exact pySortDesc_perm _
  · have hs := pySortDesc_sorted [p1, p2, p3, p4]
    rw [hsp] at hs
    simp [List.sorted_cons] at hs
    simp [calculate_points, hsp, rank_points, List.sorted_cons]
    tauto
  · simp [calculate_points, hsp, rank_points]
  · norm_num [calculate_points, pySortDesc, rank_points, List.insertionSort,
      List.orderedInsert]

/-- C3: the descending sort inside `calculate_points` is stable — for any
score value `v`, the players carrying score `v` appear in the output in
exactly their input order. -/
theorem claim_C3_stable_ties (p1 p2 p3 p4 : String × ℤ) (v : ℤ) :
    ((calculate_points [p1, p2, p3, p4]).map dropPoints).filter (fun q => q.2 = v) =
      [p1, p2, p3, p4].filter (fun q => q.2 = v) := by
  rw [calculate_points_dropPoints (by simp)]
  exact filter_pySortDesc _ v

/-! ## Facts about rounding and validation -/

theorem pyRound_intCast (k : ℤ) : pyRound (k : ℚ) = k := by
  norm_num [pyRound, Int.floor_intCast]

/-- A value that is already an exact multiple of 1/10 is a fixed point of
`round(x, 1)`. -/
theorem pyRound1_tenth (k : ℤ) : pyRound1 ((k : ℚ) / 10) = (k : ℚ) / 10 := by
  have h : (10 : ℚ) * ((k : ℚ) / 10) = (k : ℚ) := by ring
  rw [pyRound1, h, pyRound_intCast]

theorem pyRound1_int (k : ℤ) : pyRound1 (k : ℚ) = k := by
  have h := pyRound1_tenth (10 * k)
  have e : ((10 * k : ℤ) : ℚ) / 10 = (k : ℚ) := by push_cast; ring
  rw [e] at h
  exact h

/-- Every score accepted by the validation loop is a multiple of 100. -/
theorem validateFrom_ok_mod :
    ∀ (slots : List (Option String × Option JVal)) (i : ℕ)
      (ps : List (String × ℤ)), validateFrom i slots = .ok ps →
      ∀ p ∈ ps, p.2 % 100 = 0 := by
  intro slots
  induction slots with
  | nil =>
    intro i ps h
    simp only [validateFrom] at h
    injection h with h
    subst h
    simp
  | cons hd rest ih =>
    intro i ps h
    obtain ⟨nf, sf⟩ := hd
    simp only [validateFrom] at h
    cases hz : pyInt sf with
    | none => rw [hz] at h; exact Except.noConfusion h
    | some z =>
      rw [hz] at h
      dsimp only at h
      by_cases hname : pyStrip (nf.getD "") = ""
      · rw [if_pos hname] at h; exact Except.noConfusion h
      · rw [if_neg hname] at h
        by_cases hz100 : z % 100 = 0
        · rw [if_neg (by simpa using hz100)] at h
          cases hrec : validateFrom (i + 1) rest with
          | error e => rw [hrec] at h; exact Except.noConfusion h
          | ok qs =>
            rw [hrec] at h
            injection h with h
            subst h
            intro p hp
            rcases List.mem_cons.mp hp with rfl | hp'
            · exact hz100
            · exact ih (i + 1) qs hrec p hp'
        · rw [if_pos (by simpa using hz100)] at h; exact Except.noConfusion h

/-- On validated inputs every computed points value is an exact multiple
of 1/10: the rank weight is an integer and `(score - 25000) / 1000` with
`score` a multiple of 100 is an integer number of tenths. -/
theorem calculate_points_tenths {ps : List (String × ℤ)}
    (hmod : ∀ p ∈ ps, p.2 % 100 = 0) :
    ∀ r ∈ calculate_points ps, ∃ k : ℤ, r.2.2 = (k : ℚ) / 10 := by
  intro r hr
  rw [calculate_points] at hr
  obtain ⟨i, hi⟩ := List.get?_of_mem hr
  rw [List.get?_zipWith_eq_some] at hi
  obtain ⟨w, y, hw, hy, hr'⟩ := hi
  have hwmem : w ∈ rank_points := List.get?_mem hw
  have hymem : y ∈ ps := (pySortDesc_perm ps).mem_iff.mp (List.get?_mem hy)
  obtain ⟨m, hm⟩ := Int.dvd_of_emod_eq_zero (hmod y hymem)
  have hr2 : r.2.2 = w + ((y.2 : ℚ) - 25000) / 1000 := by rw [← hr']
  simp only [rank_points, List.mem_cons, List.mem_singleton] at hwmem
  rcases hwmem with rfl | rfl | rfl | rfl | hw0
  · exact ⟨150 + m - 250, by rw [hr2, hm]; push_cast; ring⟩
  · exact ⟨50 + m - 250, by rw [hr2, hm]; push_cast; ring⟩
  · exact ⟨-50 + m - 250, by rw [hr2, hm]; push_cast; ring⟩
  · exact ⟨-150 + m - 250, by rw [hr2, hm]; push_cast; ring⟩
  · exact absurd hw0 (List.not_mem_nil w)

/-- When every score field parses but some slot fails validation, the loop
stops at the FIRST failing slot `j` (0-based: every earlier slot passes)
and reports it as player `i + j`. -/
theorem validateFrom_fail (slots : List (Option String × Option JVal)) :
    ∀ i : ℕ,
      (∀ p ∈ slots, (pyInt p.2).isSome) →
      (∃ p ∈ slots, slotOK p = false) →
      ∃ j p, slots.get? j = some p ∧ slotOK p = false ∧
        (∀ k q, k < j → slots.get? k = some q → slotOK q = true) ∧
        (validateFrom i slots =
            .error ("Player " ++ toString (i + j) ++ " name is required") ∨
         validateFrom i slots =
            .error ("Player " ++ toString (i + j) ++ " score must be a multiple of 100")) := by
  induction slots with
  | nil => intro i _ hfail; simp at hfail
  | cons hd rest ih =>
    intro i hparse hfail
    obtain ⟨nf, sf⟩ := hd
    have hps : (pyInt sf).isSome := hparse _ (List.mem_cons_self _ _)
    obtain ⟨z, hz⟩ := Option.isSome_iff_exists.mp hps
    by_cases hname : pyStrip (nf.getD "") = ""
    · refine ⟨0, (nf, sf), rfl, by simp [slotOK, hname], ?_, Or.inl ?_⟩
      · intro k q hk
        omega
      · simp [validateFrom, hz, hname]
    · by_cases hz100 : z % 100 = 0
      · have hok : slotOK (nf, sf) = true := by
          simp [slotOK, hname, hz, hz100]
        obtain ⟨p, hp, hpf⟩ := hfail
        rcases List.mem_cons.mp hp with rfl | hp'
        · rw [hok] at hpf; exact Bool.noConfusion hpf
        · obtain ⟨j, q, hget, hqf, hpre, hor⟩ :=
            ih (i + 1) (fun p hp => hparse p (List.mem_cons_of_mem _ hp)) ⟨p, hp', hpf⟩
          refine ⟨j + 1, q, by simpa using hget, hqf, ?_, ?_⟩
          · intro k q' hk hq'
            match k, hk with
            | 0, _ =>
              rw [List.get?_cons_zero] at hq'
              injection hq' with hq'
              rw [← hq']
              exact hok
            | k' + 1, hk =>
              rw [List.get?_cons_succ] at hq'
              exact hpre k' q' (by omega) hq'
          · have harith : i + 1 + j = i + (j + 1) := by omega
            rw [harith] at hor
            rcases hor with h | h
            · exact Or.inl (by simp [validateFrom, hz, hname, hz100, h])
            · exact Or.inr (by simp [validateFrom, hz, hname, hz100, h])
      · refine ⟨0, (nf, sf), rfl, by simp [slotOK, hname, hz, hz100], ?_, Or.inr ?_⟩
        · intro k q hk
          omega
        · simp [validateFrom, hz, hname, hz100]

/-! ## Claims about the `/calculate` endpoint -/

/-- C4 (amended): when every score field of the request parses as an
integer (present integer or absent), a request with a failing slot is
rejected with status 400, a message naming the FIRST failing player
position `i` — every slot before position `i` passes validation — and no
row is inserted.  (When a score field does not parse as an integer the
code instead answers with the generic message — see the
counterexample.) -/
theorem claim_C4_names_position (req : CalcRequest)
    (hparse : ∀ p ∈ req.slots, (pyInt p.2).isSome)
    (hfail : ∃ p ∈ req.slots, slotOK p = false) :
    ∃ i p, i ∈ ([1, 2, 3, 4] : List ℕ) ∧
      req.slots.get? (i - 1) = some p ∧ slotOK p = false ∧
      (∀ k q, k < i - 1 → req.slots.get? k = some q → slotOK q = true) ∧
      ((calculate req).response =
          .err 400 ("Player " ++ toString i ++ " name is required") ∨
       (calculate req).response =
          .err 400 ("Player " ++ toString i ++ " score must be a multiple of 100")) ∧
      (calculate req).inserted = none := by
  obtain ⟨j, p, hget, hfalse, hpre, hor⟩ := validateFrom_fail req.slots 1 hparse hfail
  have hj : j < 4 := by
    by_contra h
    rw [List.get?_eq_none.mpr (by simp [CalcRequest.slots]; omega)] at hget
    exact Option.noConfusion hget
  have hsub : 1 + j - 1 = j := by omega
  refine ⟨1 + j, p, ?_, ?_, hfalse, ?_, ?_, ?_⟩
  · interval_cases j <;> simp
  · rw [hsub]; exact hget
  · rw [hsub]; exact hpre
  · rcases hor with h | h
    · exact Or.inl (by simp [calculate, h])
    · exact Or.inr (by simp [calculate, h])
  · rcases hor with h | h <;> simp [calculate, h]

/-- C4 witness: the theorem applied to a request whose first score is
25050, an integer that is not a multiple of 100. -/
theorem claim_C4_witness :
    (∀ p ∈ oddScoreReq.slots, (pyInt p.2).isSome) ∧
    (∃ p ∈ oddScoreReq.slots, slotOK p = false) ∧
    (∃ i p, i ∈ ([1, 2, 3, 4] : List ℕ) ∧
      oddScoreReq.slots.get? (i - 1) = some p ∧ slotOK p = false ∧
      (∀ k q, k < i - 1 → oddScoreReq.slots.get? k = some q → slotOK q = true) ∧
      ((calculate oddScoreReq).response =
          .err 400 ("Player " ++ toString i ++ " name is required") ∨
       (calculate oddScoreReq).response =
          .err 400 ("Player " ++ toString i ++ " score must be a multiple of 100")) ∧
      (calculate oddScoreReq).inserted = none) :=
  ⟨by decide, by decide, claim_C4_names_position oddScoreReq (by decide) (by decide)⟩

/-- C4 counterexample: a request whose first score field is the string
"abc" fails validation (its score is not an integer multiple of 100), yet
the response is the generic "Invalid input. Please check all fields."
message, which names no player position.  No row is inserted. -/
theorem claim_C4_counterexample :
    (calculate badScoreReq).response =
        .err 400 "Invalid input. Please check all fields." ∧
    (calculate badScoreReq).inserted = none ∧
    slotOK (badScoreReq.name1, badScoreReq.score1) = false ∧
    ∀ i ∈ ([1, 2, 3, 4] : List ℕ),
      (calculate badScoreReq).response ≠
          .err 400 ("Player " ++ toString i ++ " name is required") ∧
      (calculate badScoreReq).response ≠
          .err 400 ("Player " ++ toString i ++ " score must be a multiple of 100") := by
  refine ⟨?_, ?_, ?_, ?_⟩ <;> decide

/-- C5: whatever row `/calculate` persists, its points values are already
exact tenths — rounding them to one decimal changes nothing — and the
response returns exactly the persisted values (with `round(·, 1)`
applied, which is the identity on them).  The code inserts the raw
`calculate_points` output and rounds only in the response, but on
validated inputs (scores multiples of 100) the two agree exactly. -/
theorem claim_C5_rounded_persistence (req : CalcRequest)
    (results : List (String × ℤ × ℚ))
    (h : (calculate req).inserted = some results) :
    (∀ r ∈ results, pyRound1 r.2.2 = r.2.2) ∧
    (calculate req).response = .ok results := by
  cases hv : validateFrom 1 req.slots with
  | error e =>
    rw [calculate, hv] at h
    exact Option.noConfusion h
  | ok ps =>
    have hres : results = calculate_points ps := by
      rw [calculate, hv] at h
      injection h with h
      exact h.symm
    have hten := calculate_points_tenths (validateFrom_ok_mod _ _ _ hv)
    have hfix : ∀ r ∈ results, pyRound1 r.2.2 = r.2.2 := by
      intro r hr
      obtain ⟨k, hk⟩ := hten r (hres ▸ hr)
      rw [hk, pyRound1_tenth]
    refine ⟨hfix, ?_⟩
    rw [calculate, hv, hres]
    dsimp only
    congr 1
    conv_rhs => rw [← List.map_id (calculate_points ps)]
    apply List.map_congr_left
    intro r hr
    rw [hfix r (hres ▸ hr)]
    simp

/-- C5 witness: the theorem applied to a fully valid concrete request. -/
theorem claim_C5_witness :
    (calculate okReq).inserted =
      some (calculate_points [("A", 40000), ("B", 30000), ("C", 20000), ("D", 10000)]) ∧
    ((∀ r ∈ calculate_points [("A", 40000), ("B", 30000), ("C", 20000), ("D", 10000)],
        pyRound1 r.2.2 = r.2.2) ∧
     (calculate okReq).response =
       .ok (calculate_points [("A", 40000), ("B", 30000), ("C", 20000), ("D", 10000)])) :=
  ⟨rfl, claim_C5_rounded_persistence okReq _ rfl⟩

/-- When every slot carries a valid trimmed name and a score field that
parses to a multiple of 100, validation succeeds and yields the trimmed
names paired with the parsed scores (an absent field parsing to 0). -/
theorem validateFrom_ok_of_valid (slots : List (Option String × Option JVal)) :
    ∀ i : ℕ,
      (∀ p ∈ slots, pyStrip (p.1.getD "") ≠ "" ∧
        ∃ z, pyInt p.2 = some z ∧ z % 100 = 0) →
      validateFrom i slots =
        .ok (slots.map (fun p => (pyStrip (p.1.getD ""), (pyInt p.2).getD 0))) := by
  induction slots with
  | nil => intro i _; rfl
  | cons hd rest ih =>
    intro i h
    obtain ⟨nf, sf⟩ := hd
    obtain ⟨hname, z, hz, hz100⟩ := h _ (List.mem_cons_self _ _)
    have hrec := ih (i + 1) (fun p hp => h p (List.mem_cons_of_mem _ hp))
    simp only [validateFrom, hz]
    rw [if_neg hname, if_neg (by simpa using hz100), hrec]
    simp [hz]

/-- C9: a `/calculate` request in which some score field is absent is
accepted rather than rejected for the missing score: given valid names
and valid present scores, validation succeeds with every absent score
defaulting to 0 (which passes the multiple-of-100 check), a row is
inserted, and the response carries the computed results. -/
theorem claim_C9_missing_scores (req : CalcRequest)
    (hnames : ∀ p ∈ req.slots, pyStrip (p.1.getD "") ≠ "")
    (hscores : ∀ p ∈ req.slots,
      p.2 = none ∨ ∃ z, pyInt p.2 = some z ∧ z % 100 = 0)
    (habsent : ∃ p ∈ req.slots, p.2 = none) :
    ∃ results,
      calculate req =
        { response := .ok (results.map (fun r => (r.1, r.2.1, pyRound1 r.2.2)))
          inserted := some results } ∧
      results = calculate_points (req.slots.map
        (fun p => (pyStrip (p.1.getD ""), (pyInt p.2).getD 0))) ∧
      (∀ j p, req.slots.get? j = some p → p.2 = none →
        (req.slots.map
          (fun p => (pyStrip (p.1.getD ""), (pyInt p.2).getD 0))).get? j =
            some (pyStrip (p.1.getD ""), 0)) := by
  have hvalid : ∀ p ∈ req.slots, pyStrip (p.1.getD "") ≠ "" ∧
      ∃ z, pyInt p.2 = some z ∧ z % 100 = 0 := by
    intro p hp
    refine ⟨hnames p hp, ?_⟩
    rcases hscores p hp with hnone | hz
    · exact ⟨0, by rw [hnone]; rfl, rfl⟩
    · exact hz
  have hv := validateFrom_ok_of_valid req.slots 1 hvalid
  refine ⟨_, ?_, rfl, ?_⟩
  · rw [calculate, hv]
  · intro j p hj hpn
    rw [List.get?_map, hj]
    simp [hpn, pyInt]

/-- C9 witness: the theorem applied to a request with valid names A-D
whose first score field is absent and whose other three scores are
valid. -/
theorem claim_C9_witness :
    (∀ p ∈ mixedReq.slots, pyStrip (p.1.getD "") ≠ "") ∧
    (∀ p ∈ mixedReq.slots,
      p.2 = none ∨ ∃ z, pyInt p.2 = some z ∧ z % 100 = 0) ∧
    (∃ p ∈ mixedReq.slots, p.2 = none) ∧
    (∃ results,
      calculate mixedReq =
        { response := .ok (results.map (fun r => (r.1, r.2.1, pyRound1 r.2.2)))
          inserted := some results } ∧
      results = calculate_points (mixedReq.slots.map
        (fun p => (pyStrip (p.1.getD ""), (pyInt p.2).getD 0))) ∧
      (∀ j p, mixedReq.slots.get? j = some p → p.2 = none →
        (mixedReq.slots.map
          (fun p => (pyStrip (p.1.getD ""), (pyInt p.2).getD 0))).get? j =
            some (pyStrip (p.1.getD ""), 0))) :=
  ⟨by decide,
    by
      intro p hp
      simp only [CalcRequest.slots, mixedReq, List.mem_cons,
        List.not_mem_nil, or_false] at hp
      rcases hp with rfl | rfl | rfl | rfl
      · exact Or.inl rfl
      · exact Or.inr ⟨30000, rfl, by decide⟩
      · exact Or.inr ⟨20000, rfl, by decide⟩
      · exact Or.inr ⟨10000, rfl, by decide⟩,
    by decide,
    claim_C9_missing_scores mixedReq (by decide)
      (by
        intro p hp
        simp only [CalcRequest.slots, mixedReq, List.mem_cons,
          List.not_mem_nil, or_false] at hp
        rcases hp with rfl | rfl | rfl | rfl
        · exact Or.inl rfl
        · exact Or.inr ⟨30000, rfl, by decide⟩
        · exact Or.inr ⟨20000, rfl, by decide⟩
        · exact Or.inr ⟨10000, rfl, by decide⟩)
      (by decide)⟩

/-- C10: dropping the points component of `calculate_points`' output gives
back exactly the input multiset of (name, rawScore) pairs: the engine only
reorders and annotates, never alters a name or score. -/
theorem claim_C10_multiset_preserved (p1 p2 p3 p4 : String × ℤ) :
    (((calculate_points [p1, p2, p3, p4]).map dropPoints) : Multiset (String × ℤ)) =
      ([p1, p2, p3, p4] : List (String × ℤ)) := by
  rw [Multiset.coe_eq_coe, calculate_points_dropPoints (by simp)]
  exact pySortDesc_perm _

/-! ## Facts about the totals accumulation -/

theorem filter_length_partition {α : Type} (p : α → Prop) [DecidablePred p]
    (l : List α) :
    (l.filter (fun a => p a)).length + (l.filter (fun a => ¬ p a)).length =
      l.length := by
  induction l with
  | nil => rfl
  | cons a as ih => by_cases h : p a <;> simp [List.filter_cons, h, ← ih] <;> omega

theorem mem_dedupFirst_aux (ns : List String) :
    ∀ (acc : List String) (x : String),
      (x ∈ ns.foldl (fun a n => if n ∈ a then a else a ++ [n]) acc ↔
        x ∈ acc ∨ x ∈ ns) := by
  induction ns with
  | nil => simp
  | cons n ns ih =>
    intro acc x
    simp only [List.foldl_cons]
    by_cases hn : n ∈ acc
    · rw [if_pos hn, ih]
      constructor
      · rintro (h | h)
        · exact Or.inl h
        · exact Or.inr (List.mem_cons_of_mem _ h)
      · rintro (h | h)
        · exact Or.inl h
        · rcases List.mem_cons.mp h with rfl | h'
          · exact Or.inl hn
          · exact Or.inr h'
    · rw [if_neg hn, ih]
      simp [List.mem_append, List.mem_cons]
      tauto

theorem mem_dedupFirst {x : String} {ns : List String} :
    x ∈ dedupFirst ns ↔ x ∈ ns := by
  rw [dedupFirst, mem_dedupFirst_aux]
  simp

theorem dedupFirst_snoc (ns : List String) (n : String) :
    dedupFirst (ns ++ [n]) =
      if n ∈ ns then dedupFirst ns else dedupFirst ns ++ [n] := by
  have h1 : dedupFirst (ns ++ [n]) =
      if n ∈ dedupFirst ns then dedupFirst ns else dedupFirst ns ++ [n] := by
    simp only [dedupFirst, List.foldl_append, List.foldl_cons, List.foldl_nil]
  rw [h1]
  by_cases h : n ∈ ns
  · rw [if_pos (mem_dedupFirst.mpr h), if_pos h]
  · rw [if_neg (fun hc => h (mem_dedupFirst.mp hc)), if_neg h]

theorem sumFor_snoc (m : String) (ps : List (String × ℚ)) (n : String) (q : ℚ) :
    sumFor m (ps ++ [(n, q)]) = sumFor m ps + (if n = m then q else 0) := by
  unfold sumFor
  rw [List.filter_append, List.map_append, List.sum_append]
  by_cases h : n = m <;> simp [List.filter_cons, h]

theorem sumFor_zero {m : String} {ps : List (String × ℚ)}
    (h : m ∉ ps.map (fun p => p.1)) : sumFor m ps = 0 := by
  unfold sumFor
  rw [List.filter_eq_nil_iff.mpr]
  · rfl
  · intro p hp hpm
    simp only [decide_eq_true_eq] at hpm
    exact h (hpm ▸ List.mem_map_of_mem (fun p => p.1) hp)

/-- The dict-based accumulation of the totals loop computes exactly the
spec-side totals: one entry per distinct name in first-appearance order,
carrying the exact sum of that name's points. -/
theorem accumPairs_eq_specTotals (ps : List (String × ℚ)) :
    accumPairs ps = specTotals ps := by
  induction ps using List.reverseRecOn with
  | nil => rfl
  | append_singleton qs p ih =>
    obtain ⟨n, q⟩ := p
    have hstep : accumPairs (qs ++ [(n, q)]) = addPair (accumPairs qs) n q := by
      simp only [accumPairs, List.foldl_append, List.foldl_cons, List.foldl_nil]
    rw [hstep, ih]
    have hmapfst : (qs ++ [(n, q)]).map (fun p => p.1) =
        qs.map (fun p => p.1) ++ [n] := by simp
    by_cases hn : n ∈ qs.map (fun p => p.1)
    · have hany : (specTotals qs).any (fun p => p.1 = n) = true :=
        List.any_eq_true.mpr
          ⟨(n, sumFor n qs), List.mem_map_of_mem _ (mem_dedupFirst.mpr hn), by simp⟩
      rw [addPair, if_pos hany, specTotals, specTotals, hmapfst, dedupFirst_snoc,
        if_pos hn, List.map_map]
      apply List.map_congr_left
      intro m hm
      by_cases hmn : m = n
      · subst hmn
        simp [sumFor_snoc]
      · simp [Function.comp, hmn, sumFor_snoc, Ne.symm hmn]
    · have hany : (specTotals qs).any (fun p => p.1 = n) = false := by
        rw [List.any_eq_false]
        intro p hp
        simp only [decide_eq_true_eq]
        intro hc
        obtain ⟨m', hm', he⟩ := List.mem_map.mp hp
        have hm1 : m' = p.1 := congrArg Prod.fst he
        exact hn ((hm1.trans hc) ▸ mem_dedupFirst.mp hm')
      rw [addPair, if_neg (by simp [hany]), specTotals, specTotals, hmapfst,
        dedupFirst_snoc, if_neg hn, List.map_append]
      congr 1
      · apply List.map_congr_left
        intro m hm
        have hmn : n ≠ m := fun hc => hn (hc ▸ mem_dedupFirst.mp hm)
        simp [sumFor_snoc, hmn]
      · simp only [List.map_cons, List.map_nil]
        rw [sumFor_snoc, sumFor_zero hn, if_pos rfl, zero_add]

theorem sum_tenths (l : List ℚ) (h : ∀ x ∈ l, ∃ k : ℤ, x = (k : ℚ) / 10) :
    ∃ k : ℤ, l.sum = (k : ℚ) / 10 := by
  induction l with
  | nil => exact ⟨0, by simp⟩
  | cons a as ih =>
    obtain ⟨k, hk⟩ := h a (List.mem_cons_self _ _)
    obtain ⟨k', hk'⟩ := ih (fun x hx => h x (List.mem_cons_of_mem _ hx))
    exact ⟨k + k', by rw [List.sum_cons, hk, hk']; push_cast; ring⟩

theorem fetchedPairs_tenths {db : List GameRow} {ids : List ℕ}
    (hten : ∀ g ∈ db, ∀ e ∈ g.entries, ∃ k : ℤ, e.2.2 = (k : ℚ) / 10) :
    ∀ p ∈ fetchedPairs db ids, ∃ k : ℤ, p.2 = (k : ℚ) / 10 := by
  intro p hp
  rw [fetchedPairs, List.mem_flatten] at hp
  obtain ⟨l, hl, hpl⟩ := hp
  obtain ⟨g, hg, rfl⟩ := List.mem_map.mp hl
  have hgdb : g ∈ db := (List.mem_filter.mp hg).1
  simp only [GameRow.pairs, List.mem_cons, List.not_mem_nil, or_false] at hpl
  rcases hpl with rfl | rfl | rfl | rfl
  · exact hten g hgdb g.e1 (by simp [GameRow.entries])
  · exact hten g hgdb g.e2 (by simp [GameRow.entries])
  · exact hten g hgdb g.e3 (by simp [GameRow.entries])
  · exact hten g hgdb g.e4 (by simp [GameRow.entries])

theorem sumFor_tenths {ps : List (String × ℚ)}
    (h : ∀ p ∈ ps, ∃ k : ℤ, p.2 = (k : ℚ) / 10) (n : String) :
    ∃ k : ℤ, sumFor n ps = (k : ℚ) / 10 := by
  apply sum_tenths
  intro x hx
  obtain ⟨p, hp, rfl⟩ := List.mem_map.mp hx
  exact h p (List.mem_filter.mp hp).1

/-! ## Claims about `/calculate_totals` and `/remove_games` -/

/-- C6: a `/calculate_totals` request with an empty identifier set is
rejected with status 400 and never answered with a totals payload (in
particular not an all-zero or empty one); the stored games are returned
unchanged. -/
theorem claim_C6_empty_ids (db : List GameRow) :
    calculate_totals db [] = (.err 400 "No games selected", db) ∧
    ∀ ts, (calculate_totals db []).1 ≠ .ok ts := by
  constructor
  · simp [calculate_totals]
  · intro ts h
    simp [calculate_totals] at h

/-- C6 witness: the rejection observed on the concrete one-row table. -/
theorem claim_C6_witness :
    calculate_totals dbW [] = (.err 400 "No games selected", dbW) ∧
    ∀ ts, (calculate_totals dbW []).1 ≠ .ok ts :=
  claim_C6_empty_ids dbW

/-- C7: on a non-empty id set over a table whose stored points are exact
tenths (which every row inserted by `/calculate` is), the handler answers
with exactly the spec-side totals: one entry per distinct name occurring
in the fetched games, carrying the exact (unrounded) sum of that name's
stored points under exact string matching, sorted by total descending
with ties kept in first-appearance insertion order; the table is
unchanged. -/
theorem claim_C7_exact_totals (db : List GameRow) (ids : List ℕ) (hne : ids ≠ [])
    (hten : ∀ g ∈ db, ∀ e ∈ g.entries, ∃ k : ℤ, e.2.2 = (k : ℚ) / 10) :
    calculate_totals db ids =
      (.ok (pySortDesc (specTotals (fetchedPairs db ids))), db) ∧
    (∀ p ∈ pySortDesc (specTotals (fetchedPairs db ids)),
        p.2 = sumFor p.1 (fetchedPairs db ids)) ∧
    (∀ n : String,
        (∃ q, (n, q) ∈ pySortDesc (specTotals (fetchedPairs db ids))) ↔
          n ∈ (fetchedPairs db ids).map (fun p => p.1)) ∧
    List.Sorted (fun a b => b.2 ≤ a.2)
      (pySortDesc (specTotals (fetchedPairs db ids))) ∧
    (∀ v : ℚ,
        (pySortDesc (specTotals (fetchedPairs db ids))).filter (fun p => p.2 = v) =
          (specTotals (fetchedPairs db ids)).filter (fun p => p.2 = v)) := by
  have hmem_spec : ∀ p ∈ specTotals (fetchedPairs db ids),
      p.2 = sumFor p.1 (fetchedPairs db ids) := by
    intro p hp
    obtain ⟨m, hm, he⟩ := List.mem_map.mp hp
    rw [← he]
  refine ⟨?_, ?_, ?_, pySortDesc_sorted _, filter_pySortDesc _⟩
  · rw [calculate_totals, if_neg hne]
    dsimp only
    rw [accumPairs_eq_specTotals]
    congr 1
    congr 1
    conv_rhs => rw [← List.map_id (pySortDesc (specTotals (fetchedPairs db ids)))]
    apply List.map_congr_left
    intro p hp
    have hp' : p ∈ specTotals (fetchedPairs db ids) :=
      (pySortDesc_perm _).mem_iff.mp hp
    have hps := hmem_spec p hp'
    obtain ⟨k, hk⟩ := sumFor_tenths (fetchedPairs_tenths hten) p.1
    rw [hps, hk, pyRound1_tenth, ← hk, ← hps]
    simp
  · intro p hp
    exact hmem_spec p ((pySortDesc_perm _).mem_iff.mp hp)
  · intro n
    constructor
    · rintro ⟨q, hq⟩
      have hmem : (n, q) ∈ specTotals (fetchedPairs db ids) :=
        (pySortDesc_perm _).mem_iff.mp hq
      obtain ⟨m, hm, he⟩ := List.mem_map.mp hmem
      have hmn : m = n := congrArg Prod.fst he
      exact mem_dedupFirst.mp (hmn ▸ hm)
    · intro hn
      refine ⟨sumFor n (fetchedPairs db ids), ?_⟩
      rw [(pySortDesc_perm _).mem_iff]
      exact List.mem_map_of_mem _ (mem_dedupFirst.mpr hn)

/-- C7 witness: the theorem applied to the one-row table and id set
containing its id, with the tenths invariant discharged explicitly. -/
theorem claim_C7_witness :
    (([1] : List ℕ) ≠ []) ∧
    (calculate_totals dbW [1] =
      (.ok (pySortDesc (specTotals (fetchedPairs dbW [1]))), dbW) ∧
    (∀ p ∈ pySortDesc (specTotals (fetchedPairs dbW [1])),
        p.2 = sumFor p.1 (fetchedPairs dbW [1])) ∧
    (∀ n : String,
        (∃ q, (n, q) ∈ pySortDesc (specTotals (fetchedPairs dbW [1]))) ↔
          n ∈ (fetchedPairs dbW [1]).map (fun p => p.1)) ∧
    List.Sorted (fun a b => b.2 ≤ a.2)
      (pySortDesc (specTotals (fetchedPairs dbW [1]))) ∧
    (∀ v : ℚ,
        (pySortDesc (specTotals (fetchedPairs dbW [1]))).filter (fun p => p.2 = v) =
          (specTotals (fetchedPairs dbW [1])).filter (fun p => p.2 = v))) :=
  ⟨by decide,
    claim_C7_exact_totals dbW [1] (by decide)
      (by
        intro g hg e he
        refine ⟨0, ?_⟩
        simp only [dbW, List.mem_singleton] at hg
        subst hg
        simp only [GameRow.entries, List.mem_cons, List.not_mem_nil, or_false] at he
        rcases he with rfl | rfl | rfl | rfl <;> simp)⟩

/-- C8: for a non-empty id set, `/remove_games` deletes exactly the rows
whose id is in the set — the remaining table is the filter of the old one
(a sublist: all other rows survive in order) — and reports the exact
number of deleted rows; a set of only nonexistent ids deletes nothing and
still succeeds with `deleted_count = 0`. -/
theorem claim_C8_remove_exact (db : List GameRow) (ids : List ℕ)
    (hne : ids ≠ []) :
    (remove_games db ids).2 = db.filter (fun g => g.id ∉ ids) ∧
    (remove_games db ids).2.Sublist db ∧
    (∀ g, g ∈ (remove_games db ids).2 ↔ g ∈ db ∧ g.id ∉ ids) ∧
    (remove_games db ids).1 = .ok ((db.filter (fun g => g.id ∈ ids)).length) ∧
    (db.filter (fun g => g.id ∈ ids)).length + (remove_games db ids).2.length =
      db.length ∧
    ((∀ g ∈ db, g.id ∉ ids) →
      (remove_games db ids).1 = .ok 0 ∧ (remove_games db ids).2 = db) := by
  refine ⟨?_, ?_, ?_, ?_, ?_, ?_⟩
  · simp [remove_games, hne]
  · simp only [remove_games, if_neg hne]
    exact List.filter_sublist _
  · intro g
    simp [remove_games, hne]
  · simp [remove_games, hne]
  · simp only [remove_games, if_neg hne]
    exact filter_length_partition (fun g => g.id ∈ ids) db
  · intro hnone
    have h1 : db.filter (fun g => g.id ∈ ids) = [] :=
      List.filter_eq_nil_iff.mpr (by simpa using hnone)
    have h2 : db.filter (fun g => g.id ∉ ids) = db :=
      List.filter_eq_self.mpr (by simpa using hnone)
    constructor
    · simp [remove_games, hne, h1]
    · simp only [remove_games, if_neg hne]
      exact h2

/-- C8 witness: the theorem applied to the one-row table with an id set
holding the stored id 1 and the nonexistent id 99. -/
theorem claim_C8_witness :
    (([1, 99] : List ℕ) ≠ []) ∧
    ((remove_games dbW [1, 99]).2 = dbW.filter (fun g => g.id ∉ [1, 99]) ∧
    (remove_games dbW [1, 99]).2.Sublist dbW ∧
    (∀ g, g ∈ (remove_games dbW [1, 99]).2 ↔ g ∈ dbW ∧ g.id ∉ [1, 99]) ∧
    (remove_games dbW [1, 99]).1 =
      .ok ((dbW.filter (fun g => g.id ∈ [1, 99])).length) ∧
    (dbW.filter (fun g => g.id ∈ [1, 99])).length +
      (remove_games dbW [1, 99]).2.length = dbW.length ∧
    ((∀ g ∈ dbW, g.id ∉ [1, 99]) →
      (remove_games dbW [1, 99]).1 = .ok 0 ∧
      (remove_games dbW [1, 99]).2 = dbW)) :=
  ⟨by decide, claim_C8_remove_exact dbW [1, 99] (by decide)⟩

end Mahjong
